import Mathlib

/-!
Verification development for the collection-diff module of pymatgen-db
(file matgendb/vv/diff.py).  The Python source is shallowly embedded:

* Python floats are modelled as rationals.
* Record values are modelled by `Value`: `num` covers values that the
  Python float() coercion accepts, `str` covers non-numeric values;
  stringification is an abstract injective-enough rendering.
* Exceptions are modelled with `Except`; a raised ValueError or KeyError
  becomes a structured `PyErr`, and the early return of the empty dict in
  `Differ.diff` becomes the `Halt.empty` signal.
-/

namespace MgVvDiff

/-- A record field value: either numeric (float-coercible) or a plain
non-numeric string. -/
inductive Value where
  | num (q : ℚ)
  | str (s : String)
deriving DecidableEq

/-- The Python float() coercion: succeeds exactly on numeric values;
on a non-numeric value the source raises ValueError (TypeError). -/
def Value.toFloat : Value → Option ℚ
  | .num q => some q
  | .str _ => none

/-- Abstract rendering used where the source calls str() on a value. -/
def Value.toStr : Value → String
  | .num q => toString q.num ++ "/" ++ toString q.den
  | .str s => s

/-- A raised Python exception, as relevant to diff.py. -/
inductive PyErr where
  | valueErr (msg : String)
  | keyErr (msg : String)
deriving DecidableEq

/-- Association-list lookup, the model of Python dict indexing. -/
def alookup {α β : Type} [DecidableEq α] (l : List (α × β)) (a : α) : Option β :=
  (l.find? (fun p => decide (p.1 = a))).map (fun p => p.2)

/-- Association-list update, the model of Python dict assignment. -/
def aset {α β : Type} [DecidableEq α] : List (α × β) → α → β → List (α × β)
  | [], a, b => [(a, b)]
  | (a1, b1) :: t, a, b => if a1 = a then (a, b) :: t else (a1, b1) :: aset t a b

theorem alookup_aset_self {α β : Type} [DecidableEq α] (l : List (α × β)) (a : α) (b : β) :
    alookup (aset l a b) a = some b := by
  induction l with
  | nil => simp [aset, alookup, List.find?]
  | cons h t ih =>
    by_cases hh : h.1 = a
    · simp [aset, hh, alookup, List.find?]
    · simpa [aset, hh, alookup, List.find?] using ih

/-! ## The Delta expression language -/

/-- A compiled delta rule (class Delta): sign-change flag, thresholds
dx and dy, inclusivity flag, percentage flag, original expression. -/
structure Delta where
  sign : Bool
  dx : ℚ
  dy : ℚ
  eq : Bool
  pct : Bool
  orig_expr : String
deriving DecidableEq

/-- Value of a nonempty digit run, as parsed by the regex piece for digits. -/
def digitsVal (ds : List Char) : ℕ :=
  ds.foldl (fun a c => 10 * a + (c.toNat - 48)) 0

/-- Greedy parse of the regex number (one or more digits, optional dot and
one or more digits); returns the value and the unconsumed suffix. -/
def parseNum (cs : List Char) : Option (ℚ × List Char) :=
  match cs.span (fun c => c.isDigit) with
  | ([], _) => none
  | (ds, rest) =>
    match rest with
    | '.' :: cs2 =>
      match cs2.span (fun c => c.isDigit) with
      | ([], _) => some ((digitsVal ds : ℚ), rest)
      | (fs, rest2) => some ((digitsVal ds : ℚ) + (digitsVal fs : ℚ) / (10 : ℚ) ^ fs.length, rest2)
    | _ => some ((digitsVal ds : ℚ), rest)

/-- Optional number: the regex group is optional, so failure consumes nothing. -/
def optNum (cs : List Char) : Option ℚ × List Char :=
  match parseNum cs with
  | none => (none, cs)
  | some (q, rest) => (some q, rest)

/-- Optional single-character flag group of the regex. -/
def optFlag (c : Char) (cs : List Char) : Bool × List Char :=
  match cs with
  | [] => (false, cs)
  | c1 :: rest => if c1 = c then (true, rest) else (false, cs)

/-- Result of matching the compiled regex of class Delta against a prefix of
the input: the captured groups X, Y, eq, pct and the unmatched suffix. -/
structure DeltaMatch where
  x : Option ℚ
  y : Option ℚ
  eq : Bool
  pct : Bool
  rest : List Char
deriving DecidableEq

/-- The regex match of the Delta expression pattern at the start of the
string.  Matches a plus sign, an optional number X, a minus sign, an
optional number Y, then optional equality and percent markers; returns
none when no prefix matches (re.match returning None). -/
def deltaMatch : List Char → Option DeltaMatch
  | [] => none
  | c :: cs =>
    if c = '+' then
      match optNum cs with
      | (x, cs1) =>
        match cs1 with
        | '-' :: cs2 =>
          match optNum cs2 with
          | (y, cs3) =>
            match optFlag '=' cs3 with
            | (eq, cs4) =>
              match optFlag '%' cs4 with
              | (pct, cs5) => some ⟨x, y, eq, pct, cs5⟩
        | _ => none
    else none

/-- A parse failure in the Delta constructor, carrying the data that the
raised ValueError message is formatted from. -/
inductive DeltaErr where
  | badSyntax (s : String)
  | junk (s : String) (j : String)
  | asym (s : String)
deriving DecidableEq

/-- The full original expression that a parse failure reports. -/
def DeltaErr.origin : DeltaErr → String
  | .badSyntax s => s
  | .junk s _ => s
  | .asym s => s

/-- The Delta constructor: match the expression, reject unmatched input and
trailing junk, then distribute the captured groups over the three rule
forms exactly as the source does. -/
def Delta.ofString (s : String) : Except DeltaErr Delta :=
  match deltaMatch s.data with
  | none => .error (.badSyntax s)
  | some m =>
    if m.rest ≠ [] then .error (.junk s (String.mk m.rest))
    else
      match m.x, m.y with
      | none, none => .ok ⟨true, 0, 0, false, false, s⟩
      | some _, none => .error (.asym s)
      | xOpt, some y => .ok ⟨false, xOpt.getD y, -y, m.eq, m.pct, s⟩

/-- The compiled comparison: sign mode, else percentage mode, else absolute
mode, with inclusive or strict threshold tests. -/
def Delta.cmp (d : Delta) (a b : ℚ) : Bool :=
  if d.sign then decide ((a < 0 ∧ 0 < b) ∨ (0 < a ∧ b < 0))
  else if d.pct then
    if a = 0 then false
    else
      if d.eq then decide (d.dx ≤ 100 * (b - a) / a ∨ 100 * (b - a) / a ≤ d.dy)
      else decide (d.dx < 100 * (b - a) / a ∨ 100 * (b - a) / a < d.dy)
  else
    if d.eq then decide (d.dx ≤ b - a ∨ b - a ≤ d.dy)
    else decide (d.dx < b - a ∨ b - a < d.dy)

/-- Well-formedness of a delta expression: the regex matches, the match
covers the whole string, and the captures are not the rejected
X-without-Y combination. -/
def wellFormed (s : String) : Bool :=
  match deltaMatch s.data with
  | none => false
  | some m => m.rest.isEmpty && (m.x.isNone || m.y.isSome)

/-! ## The Differ -/

/-- A record as produced by the record source: field names to values. -/
abbrev Rec := List (String × Value)

/-- Field lookup on a record. -/
def getField (r : Rec) (f : String) : Option Value :=
  alookup r f

/-- Differ configuration: key field, equality-comparison property names,
informational field names, and the property-to-rule mapping.  The filter
and query machinery are external to the embedded core: a source is the
list of records its query yields. -/
structure Differ where
  key_field : String
  props : List String
  info : List String
  prop_deltas : List (String × Delta)

/-- Per-key informational data accumulated across both sources. -/
abbrev InfoMap := List (Value × List (String × Value))

/-- Per-source extraction state: seen keys in order, numeric property
values per key, equality tuples per key, record count, and the tally of
missing-property events. -/
structure CollState where
  keys : List Value
  numprops : List (Value × List (String × ℚ))
  eqprops : List (Value × List (String × String))
  count : ℕ
  missing_props : ℕ
deriving DecidableEq

def initColl : CollState := ⟨[], [], [], 0, 0⟩

/-- Why the main query loop stopped early: a raised exception, or the
early return of the empty dict on a record without the key field
and on the all-records-missing-properties condition. -/
inductive Halt where
  | raised (e : PyErr)
  | empty
deriving DecidableEq

/-- Add a key to the seen-key set (insertion order kept, no duplicates). -/
def addKey (ks : List Value) (k : Value) : List Value :=
  if k ∈ ks then ks else ks ++ [k]

/-- The message of the ValueError raised on a non-float property value. -/
def notNumMsg (cidx : Bool) (key : Value) (p : String) (v : Value) : String :=
  "Not a number: collection=" ++ (if cidx then "new" else "old") ++
    " key=" ++ key.toStr ++ " " ++ p ++ "=" ++ v.toStr

/-- Numeric-property extraction for one record: missing fields bump the
missing tally and are skipped, non-numeric values raise ValueError,
extracted values land in the per-record pvals dict. -/
def numExtract (cidx : Bool) (key : Value) (r : Rec) :
    List (String × Delta) → List (String × ℚ) → ℕ → Except PyErr (List (String × ℚ) × ℕ)
  | [], pv, m => .ok (pv, m)
  | (pkey, _) :: rest, pv, m =>
    match getField r pkey with
    | none => numExtract cidx key r rest pv (m + 1)
    | some v =>
      match v.toFloat with
      | none => .error (.valueErr (notNumMsg cidx key pkey v))
      | some f => numExtract cidx key r rest (aset pv pkey f) m

/-- Equality-tuple extraction for one record: the ordered tuple of
(field, stringified value); any missing field skips the whole tuple. -/
def eqExtract (r : Rec) : List String → Option (List (String × String))
  | [] => some []
  | p :: ps =>
    match getField r p with
    | none => none
    | some v =>
      match eqExtract r ps with
      | none => none
      | some t => some ((p, v.toStr) :: t)

/-- Informational-field extraction for one record; a missing field raises
KeyError exactly as the unguarded dict access in the source does. -/
def infoExtract (r : Rec) : List (String × Value) → List String → Except PyErr (List (String × Value))
  | cur, [] => .ok cur
  | cur, f :: fs =>
    match getField r f with
    | none => .error (.keyErr f)
    | some v => infoExtract r (aset cur f v) fs

/-- Tail of one loop iteration: store informational fields if configured. -/
def finishRec (D : Differ) (r : Rec) (key : Value) (st : CollState) (im : InfoMap) :
    Except Halt (CollState × InfoMap) :=
  if D.info ≠ [] then
    match infoExtract r ((alookup im key).getD []) D.info with
    | .error e => .error (.raised e)
    | .ok ie => .ok (st, aset im key ie)
  else .ok (st, im)

/-- One loop iteration after key extraction and the duplicate check:
numeric extraction, equality extraction (whose missing-field case skips
the informational extraction, like the continue in the source), then
informational extraction. -/
def stepBody (D : Differ) (cidx : Bool) (st : CollState) (im : InfoMap) (r : Rec) (key : Value) :
    Except Halt (CollState × InfoMap) :=
  match (if D.prop_deltas ≠ [] then
           match numExtract cidx key r D.prop_deltas [] 0 with
           | .error e => .error e
           | .ok (pv, m) => .ok (aset st.numprops key pv, m)
         else .ok (st.numprops, 0) : Except PyErr (List (Value × List (String × ℚ)) × ℕ)) with
  | .error e => .error (.raised e)
  | .ok (np2, m1) =>
    if D.props ≠ [] then
      match eqExtract r D.props with
      | none =>
        .ok (⟨addKey st.keys key, np2, st.eqprops, st.count + 1, st.missing_props + m1 + 1⟩, im)
      | some tup =>
        finishRec D r key
          ⟨addKey st.keys key, np2, aset st.eqprops key tup, st.count + 1, st.missing_props + m1⟩ im
    else
      finishRec D r key
        ⟨addKey st.keys key, np2, st.eqprops, st.count + 1, st.missing_props + m1⟩ im

/-- One full iteration of the main query loop for one record: key
extraction (missing key returns the empty dict), duplicate check
(ValueError when duplicates are disallowed), then the body. -/
def stepRec (D : Differ) (allow_dup cidx : Bool) (st : CollState) (im : InfoMap) (r : Rec) :
    Except Halt (CollState × InfoMap) :=
  match getField r D.key_field with
  | none => .error .empty
  | some key =>
    if allow_dup = false ∧ key ∈ st.keys then
      .error (.raised (.valueErr ("Duplicate key: " ++ key.toStr)))
    else stepBody D cidx st im r key

/-- The main query loop over the records of one source. -/
def runRecs (D : Differ) (allow_dup cidx : Bool) :
    CollState → InfoMap → List Rec → Except Halt (CollState × InfoMap)
  | st, im, [] => .ok (st, im)
  | st, im, r :: rs =>
    match stepRec D allow_dup cidx st im r with
    | .error h => .error h
    | .ok (st1, im1) => runRecs D allow_dup cidx st1 im1 rs

/-- Extraction from one source: the loop, then the aggregate check that
returns the empty dict when the record count is positive and equals the
missing-property tally. -/
def runColl (D : Differ) (allow_dup cidx : Bool) (recs : List Rec) (im : InfoMap) :
    Except Halt (CollState × InfoMap) :=
  match runRecs D allow_dup cidx initColl im recs with
  | .error h => .error h
  | .ok (st, im2) =>
    if 0 < st.count ∧ st.count = st.missing_props then .error .empty else .ok (st, im2)

/-- A change record of the result: a numeric-delta change carrying the
property, old and new values and the triggering rule, or an exact-match
change carrying both equality tuples; each with merged informational
fields. -/
inductive ChangeRec where
  | delta (key : Value) (property : String) (old : ℚ) (new : ℚ) (rule : Delta)
      (extra : List (String × Value))
  | exact (key : Value) (old : List (String × String)) (new : List (String × String))
      (extra : List (String × Value))
deriving DecidableEq

/-- The unguarded two-level dict access numprops-of-key-of-prop. -/
def numLookup (np : List (Value × List (String × ℚ))) (k : Value) (p : String) :
    Except PyErr ℚ :=
  match alookup np k with
  | none => .error (.keyErr k.toStr)
  | some pv =>
    match alookup pv p with
    | none => .error (.keyErr p)
    | some q => .ok q

/-- The informational fields merged into an emitted change record: none
when the info dict is empty, else the unguarded info-of-key access. -/
def changeExtra (im : InfoMap) (k : Value) : Except PyErr (List (String × Value)) :=
  if im = [] then .ok []
  else
    match alookup im k with
    | none => .error (.keyErr k.toStr)
    | some ex => .ok ex

/-- Numeric comparisons for one key over all configured delta rules:
look both values up (the source does so unguarded), evaluate the rule,
and emit a delta change on match. -/
def numChanges (np0 np1 : List (Value × List (String × ℚ))) (im : InfoMap) (k : Value) :
    List (String × Delta) → Except PyErr (List ChangeRec)
  | [] => .ok []
  | (pkey, rule) :: rest =>
    match numLookup np0 k pkey with
    | .error e => .error e
    | .ok oldval =>
      match numLookup np1 k pkey with
      | .error e => .error e
      | .ok newval =>
        match (if rule.cmp oldval newval then
                 (changeExtra im k).map (fun ex => [ChangeRec.delta k pkey oldval newval rule ex])
               else .ok [] : Except PyErr (List ChangeRec)) with
        | .error e => .error e
        | .ok emitted =>
          (numChanges np0 np1 im k rest).map (fun l => emitted ++ l)

/-- Exact comparison for one key: compare the two equality tuples (the
source looks both up unguarded) and emit one exact change when they
differ. -/
def eqChange (eq0 eq1 : List (Value × List (String × String))) (im : InfoMap) (k : Value) :
    Except PyErr (List ChangeRec) :=
  match alookup eq0 k with
  | none => .error (.keyErr k.toStr)
  | some t0 =>
    match alookup eq1 k with
    | none => .error (.keyErr k.toStr)
    | some t1 =>
      if t0 = t1 then .ok []
      else (changeExtra im k).map (fun ex => [ChangeRec.exact k t0 t1 ex])

/-- The keys the changed-property pass iterates: those in both key sets. -/
def changedKeys (ks1 ks2 : List Value) : List Value :=
  ks1.filter (fun k => decide (k ∈ ks2))

/-- The changed-property pass over a key list: numeric comparisons when
delta rules are configured, then the exact comparison when equality
properties are configured. -/
def changedPropsGo (D : Differ) (s1 s2 : CollState) (im : InfoMap) :
    List Value → Except PyErr (List ChangeRec)
  | [] => .ok []
  | k :: ks =>
    match (if D.prop_deltas ≠ [] then numChanges s1.numprops s2.numprops im k D.prop_deltas
           else .ok [] : Except PyErr (List ChangeRec)) with
    | .error e => .error e
    | .ok nc =>
      match (if D.props ≠ [] then eqChange s1.eqprops s2.eqprops im k
             else .ok [] : Except PyErr (List ChangeRec)) with
      | .error e => .error e
      | .ok ec =>
        match changedPropsGo D s1 s2 im ks with
        | .error e => .error e
        | .ok rest => .ok (nc ++ ec ++ rest)

/-- The result dict: each of the three output keys is present (some) or
absent (none); the structural-error abort returns all three absent. -/
structure ResultDict where
  missing : Option (List Rec)
  additional : Option (List Rec)
  different : Option (List ChangeRec)
deriving DecidableEq

/-- The outcome of diff: a raised exception or a returned dict. -/
inductive DiffOutcome where
  | raised (e : PyErr)
  | returned (r : ResultDict)
deriving DecidableEq

def haltOut : Halt → DiffOutcome
  | .raised e => .raised e
  | .empty => .returned ⟨none, none, none⟩

/-- An output record of the missing or additional list: the key field
mapped to the key, merged with the informational fields when configured. -/
def mkOutRec (D : Differ) (im : InfoMap) (k : Value) : Rec :=
  if D.info ≠ [] then ((alookup im k).getD []).foldl (fun acc p => aset acc p.1 p.2) [(D.key_field, k)]
  else [(D.key_field, k)]

/-- Result assembly from the two extraction states: the changed pass runs
when any property is configured, then the three lists are built; the
additional list is omitted in only-missing mode. -/
def buildResult (D : Differ) (s1 s2 : CollState) (im : InfoMap) (only_missing : Bool) :
    DiffOutcome :=
  match (if D.props ≠ [] ∨ D.prop_deltas ≠ [] then
           changedPropsGo D s1 s2 im (changedKeys s1.keys s2.keys)
         else .ok [] : Except PyErr (List ChangeRec)) with
  | .error e => .raised e
  | .ok ch =>
    .returned ⟨some ((s1.keys.filter (fun k => decide (¬ k ∈ s2.keys))).map (mkOutRec D im)),
               (if only_missing then none
                else some ((s2.keys.filter (fun k => decide (¬ k ∈ s1.keys))).map (mkOutRec D im))),
               some ch⟩

/-- Differ.diff: extract from both sources, then assemble the result. -/
def Differ.diff (D : Differ) (c1 c2 : List Rec) (only_missing allow_dup : Bool) : DiffOutcome :=
  match runColl D allow_dup false c1 [] with
  | .error h => haltOut h
  | .ok (s1, im1) =>
    match runColl D allow_dup true c2 im1 with
    | .error h => haltOut h
    | .ok (s2, im2) => buildResult D s1 s2 im2 only_missing

/-- The keys of the records of a source, in order, as read off the key
field. -/
def recKeys (kf : String) : List Rec → List Value
  | [] => []
  | r :: rs =>
    match getField r kf with
    | none => recKeys kf rs
    | some k => k :: recKeys kf rs

/-- The key a change record is about. -/
def ChangeRec.keyOf : ChangeRec → Value
  | .delta k _ _ _ _ _ => k
  | .exact k _ _ _ => k

/-- Whether a change record is an exact-type record for the given key. -/
def ChangeRec.isExactFor (k : Value) : ChangeRec → Bool
  | .exact k1 _ _ _ => decide (k1 = k)
  | .delta _ _ _ _ _ _ => false

/-- Whether an extraction step succeeded. -/
def stepOk (e : Except Halt (CollState × InfoMap)) : Bool :=
  match e with
  | .ok _ => true
  | .error _ => false

/-- The numeric snapshot entry for a key after an extraction step. -/
def stepNum (e : Except Halt (CollState × InfoMap)) (k : Value) :
    Option (List (String × ℚ)) :=
  match e with
  | .ok (st, _) => alookup st.numprops k
  | .error _ => none

/-- The equality snapshot entry for a key after an extraction step. -/
def stepEq (e : Except Halt (CollState × InfoMap)) (k : Value) :
    Option (List (String × String)) :=
  match e with
  | .ok (st, _) => alookup st.eqprops k
  | .error _ => none

/-! ## Shared lemmas about the extraction loop -/

theorem mem_addKey (ks : List Value) (k a : Value) : a ∈ addKey ks k ↔ (a ∈ ks ∨ a = k) := by
  unfold addKey
  split
  · rename_i hmem
    constructor
    · exact Or.inl
    · rintro (h | rfl)
      · exact h
      · exact hmem
  · simp [List.mem_append]

theorem finishRec_ok_state (D : Differ) (r : Rec) (key : Value) (st : CollState) (im : InfoMap)
    (st2 : CollState) (im2 : InfoMap) (h : finishRec D r key st im = .ok (st2, im2)) :
    st2 = st := by
  unfold finishRec at h
  split at h
  · split at h
    · cases h
    · simp only [Except.ok.injEq, Prod.mk.injEq] at h
      exact h.1.symm
  · simp only [Except.ok.injEq, Prod.mk.injEq] at h
    exact h.1.symm

theorem stepBody_ok_keys (D : Differ) (cidx : Bool) (st : CollState) (im : InfoMap) (r : Rec)
    (key : Value) (st2 : CollState) (im2 : InfoMap)
    (h : stepBody D cidx st im r key = .ok (st2, im2)) :
    st2.keys = addKey st.keys key := by
  unfold stepBody at h
  split at h
  · cases h
  · split at h
    · split at h
      · simp only [Except.ok.injEq, Prod.mk.injEq] at h
        rw [← h.1]
      · rw [finishRec_ok_state D r key _ im st2 im2 h]
    · rw [finishRec_ok_state D r key _ im st2 im2 h]

theorem stepRec_ok_keys (D : Differ) (ad cidx : Bool) (st : CollState) (im : InfoMap) (r : Rec)
    (st2 : CollState) (im2 : InfoMap) (h : stepRec D ad cidx st im r = .ok (st2, im2)) :
    ∃ key, getField r D.key_field = some key ∧ st2.keys = addKey st.keys key := by
  unfold stepRec at h
  split at h
  · cases h
  · rename_i key hg
    split at h
    · cases h
    · exact ⟨key, hg, stepBody_ok_keys D cidx st im r key st2 im2 h⟩

theorem runRecs_ok_keys (D : Differ) (ad cidx : Bool) :
    ∀ (rs : List Rec) (st : CollState) (im : InfoMap) (st2 : CollState) (im2 : InfoMap),
      runRecs D ad cidx st im rs = .ok (st2, im2) →
      ∀ k, k ∈ st2.keys ↔ (k ∈ st.keys ∨ k ∈ recKeys D.key_field rs)
  | [], st, im, st2, im2, h, k => by
    simp only [runRecs, Except.ok.injEq, Prod.mk.injEq] at h
    rw [← h.1]
    simp [recKeys]
  | r :: rs, st, im, st2, im2, h, k => by
    simp only [runRecs] at h
    cases hs : stepRec D ad cidx st im r with
    | error e => rw [hs] at h; cases h
    | ok p =>
      obtain ⟨st1, im1⟩ := p
      rw [hs] at h
      obtain ⟨key, hk, hkeys⟩ := stepRec_ok_keys D ad cidx st im r st1 im1 hs
      have ih := runRecs_ok_keys D ad cidx rs st1 im1 st2 im2 h k
      rw [ih, hkeys, mem_addKey]
      simp only [recKeys, hk, List.mem_cons]
      tauto

theorem runColl_ok_keys (D : Differ) (ad cidx : Bool) (recs : List Rec) (im : InfoMap)
    (st : CollState) (im2 : InfoMap) (h : runColl D ad cidx recs im = .ok (st, im2)) :
    ∀ k, k ∈ st.keys ↔ k ∈ recKeys D.key_field recs := by
  unfold runColl at h
  split at h
  · cases h
  · rename_i st1 im1 hr
    split at h
    · cases h
    · simp only [Except.ok.injEq, Prod.mk.injEq] at h
      intro k
      have := runRecs_ok_keys D ad cidx recs initColl im st1 im1 hr k
      rw [h.1] at this
      simpa [initColl] using this

theorem ofString_pct_sign (s : String) (d : Delta) (hd : Delta.ofString s = Except.ok d)
    (hp : d.pct = true) : d.sign = false := by
  unfold Delta.ofString at hd
  split at hd
  · cases hd
  · split at hd
    · cases hd
    · rename_i m hm hr
      split at hd
      · simp only [Except.ok.injEq] at hd
        rw [← hd] at hp
        cases hp
      · cases hd
      · simp only [Except.ok.injEq] at hd
        rw [← hd]

/-! ## Claim theorems for the Delta expression language -/

/-- Claim C3: a Delta compiled from the two-character expression of a bare
plus and minus is the sign-change rule: cmp is true exactly when old and
new have strictly opposite signs; zero is neither positive nor negative. -/
theorem c3_sign_rule (d : Delta) (h : Delta.ofString "+-" = Except.ok d) (a b : ℚ) :
    d.cmp a b = true ↔ ((a < 0 ∧ 0 < b) ∨ (0 < a ∧ b < 0)) := by
  have hd : Delta.ofString "+-" = Except.ok (⟨true, 0, 0, false, false, "+-"⟩ : Delta) := rfl
  rw [hd] at h
  simp only [Except.ok.injEq] at h
  rw [← h]
  simp [Delta.cmp]

/-- Witness for C3 at the sample points of the spec. -/
theorem c3_sign_rule_witness :
    ((⟨true, 0, 0, false, false, "+-"⟩ : Delta).cmp (-1) 1 = true) ∧
    ((⟨true, 0, 0, false, false, "+-"⟩ : Delta).cmp 1 (-1) = true) ∧
    ((⟨true, 0, 0, false, false, "+-"⟩ : Delta).cmp 1 2 = false) ∧
    ((⟨true, 0, 0, false, false, "+-"⟩ : Delta).cmp 0 5 = false) := by
  have h := fun a b => c3_sign_rule ⟨true, 0, 0, false, false, "+-"⟩ rfl a b
  refine ⟨(h (-1) 1).mpr (by norm_num), (h 1 (-1)).mpr (by norm_num), ?_, ?_⟩
  · cases hb : (⟨true, 0, 0, false, false, "+-"⟩ : Delta).cmp 1 2 with
    | false => rfl
    | true => exact absurd ((h 1 2).mp hb) (by norm_num)
  · cases hb : (⟨true, 0, 0, false, false, "+-"⟩ : Delta).cmp 0 5 with
    | false => rfl
    | true => exact absurd ((h 0 5).mp hb) (by norm_num)

/-- Claim C2: a Delta compiled from a threshold expression with magnitudes
X (optional, defaulting to Y) and Y matches exactly when the delta
new minus old exceeds X or falls below minus Y, strictly without the
inclusive marker and inclusively with it. -/
theorem c2_threshold_rule (s : String) (m : DeltaMatch) (qy : ℚ) (d : Delta)
    (hm : deltaMatch s.data = some m) (hrest : m.rest = []) (hy : m.y = some qy)
    (hpct : m.pct = false) (hd : Delta.ofString s = Except.ok d) :
    (m.eq = false → ∀ old new : ℚ,
      (d.cmp old new = true ↔ (new - old > m.x.getD qy ∨ new - old < -qy))) ∧
    (m.eq = true → ∀ old new : ℚ,
      (d.cmp old new = true ↔ (new - old ≥ m.x.getD qy ∨ new - old ≤ -qy))) := by
  unfold Delta.ofString at hd
  split at hd
  · cases hd
  · rename_i m2 hm2
    rw [hm] at hm2
    simp only [Option.some.injEq] at hm2
    subst hm2
    split at hd
    · cases hd
    · split at hd
      · rename_i hx2 hy2
        rw [hy2] at hy
        cases hy
      · cases hd
      · rename_i y2 hy2
        rw [hy] at hy2
        simp only [Option.some.injEq] at hy2
        subst hy2
        simp only [Except.ok.injEq] at hd
        rw [← hd]
        constructor
        · intro heq old new
          simp [Delta.cmp, hpct, heq, gt_iff_lt]
        · intro heq old new
          simp [Delta.cmp, hpct, heq, ge_iff_le]

/-- Witness for C2: the boundary examples of the spec for the symmetric
five-unit rule, strict and inclusive. -/
theorem c2_threshold_rule_witness :
    ((⟨false, 5, -5, false, false, "+-5"⟩ : Delta).cmp 10 16 = true) ∧
    ((⟨false, 5, -5, false, false, "+-5"⟩ : Delta).cmp 10 15 = false) ∧
    ((⟨false, 5, -5, true, false, "+-5="⟩ : Delta).cmp 10 15 = true) := by
  have h1 := c2_threshold_rule "+-5" ⟨none, some 5, false, false, []⟩ 5
    ⟨false, 5, -5, false, false, "+-5"⟩ rfl rfl rfl rfl rfl
  have h2 := c2_threshold_rule "+-5=" ⟨none, some 5, true, false, []⟩ 5
    ⟨false, 5, -5, true, false, "+-5="⟩ rfl rfl rfl rfl rfl
  refine ⟨(h1.1 rfl 10 16).mpr (by norm_num), ?_, (h2.2 rfl 10 15).mpr (by norm_num)⟩
  cases hb : (⟨false, 5, -5, false, false, "+-5"⟩ : Delta).cmp 10 15 with
  | false => rfl
  | true => exact absurd ((h1.1 rfl 10 15).mp hb) (by norm_num)

/-- Claim C4: a parsed Delta with the percentage flag never matches when
old is zero, and otherwise applies the absolute-mode threshold comparison
to one hundred times the relative change. -/
theorem c4_pct_rule (s : String) (d : Delta) (hd : Delta.ofString s = Except.ok d)
    (hp : d.pct = true) :
    (∀ new : ℚ, d.cmp 0 new = false) ∧
    (∀ old new : ℚ, old ≠ 0 →
      d.cmp old new =
        Delta.cmp ⟨false, d.dx, d.dy, d.eq, false, d.orig_expr⟩ 0 (100 * (new - old) / old)) := by
  have hs := ofString_pct_sign s d hd hp
  constructor
  · intro new
    simp [Delta.cmp, hs, hp]
  · intro old new h0
    simp [Delta.cmp, hs, hp, h0, sub_zero]

/-- Witness for C4: the ten-percent rule on an old value of zero. -/
theorem c4_pct_rule_witness :
    (⟨false, 10, -10, false, true, "+-10%"⟩ : Delta).cmp 0 100 = false :=
  (c4_pct_rule "+-10%" ⟨false, 10, -10, false, true, "+-10%"⟩ rfl rfl).1 100

/-- Claim C9: constructing a Delta fails exactly on malformed input, namely
when the expression pattern does not match, when the match leaves trailing
characters, or when a magnitude X is given without Y; every failure
reports the full original string, the trailing-junk failure also reports
the junk, and on well-formed input construction yields a rule. -/
theorem c9_syntax_errors (s : String) :
    ((∃ e, Delta.ofString s = Except.error e) ↔ wellFormed s = false) ∧
    (∀ e, Delta.ofString s = Except.error e → DeltaErr.origin e = s) ∧
    (∀ j, Delta.ofString s = Except.error (DeltaErr.junk s j) →
      ∃ m, deltaMatch s.data = some m ∧ j = String.mk m.rest) ∧
    (wellFormed s = true → ∃ d, Delta.ofString s = Except.ok d) := by
  unfold Delta.ofString wellFormed
  cases hm : deltaMatch s.data with
  | none =>
    refine ⟨⟨fun _ => rfl, fun _ => ⟨.badSyntax s, rfl⟩⟩, ?_, ?_, ?_⟩
    · intro e he
      simp only [Except.error.injEq] at he
      rw [← he]
      rfl
    · intro j hj
      simp only [Except.error.injEq] at hj
      cases hj
    · intro hw
      cases hw
  | some m =>
    dsimp only
    by_cases hr : m.rest = []
    · rw [if_neg (by simp [hr])]
      rw [hr]
      cases hx : m.x with
      | none =>
        cases hy : m.y with
        | none =>
          refine ⟨⟨?_, ?_⟩, ?_, ?_, ?_⟩
          · rintro ⟨e, he⟩
            cases he
          · intro hw
            simp at hw
          · intro e he
            cases he
          · intro j hj
            cases hj
          · intro _
            exact ⟨⟨true, 0, 0, false, false, s⟩, rfl⟩
        | some qy =>
          refine ⟨⟨?_, ?_⟩, ?_, ?_, ?_⟩
          · rintro ⟨e, he⟩
            cases he
          · intro hw
            simp at hw
          · intro e he
            cases he
          · intro j hj
            cases hj
          · intro _
            exact ⟨⟨false, Option.getD none qy, -qy, m.eq, m.pct, s⟩, rfl⟩
      | some qx =>
        cases hy : m.y with
        | none =>
          refine ⟨⟨fun _ => rfl, fun _ => ⟨.asym s, rfl⟩⟩, ?_, ?_, ?_⟩
          · intro e he
            simp only [Except.error.injEq] at he
            rw [← he]
            rfl
          · intro j hj
            simp only [Except.error.injEq] at hj
            cases hj
          · intro hw
            simp at hw
        | some qy =>
          refine ⟨⟨?_, ?_⟩, ?_, ?_, ?_⟩
          · rintro ⟨e, he⟩
            cases he
          · intro hw
            simp at hw
          · intro e he
            cases he
          · intro j hj
            cases hj
          · intro _
            exact ⟨⟨false, Option.getD (some qx) qy, -qy, m.eq, m.pct, s⟩, rfl⟩
    · rw [if_pos hr]
      refine ⟨⟨fun _ => by simp [hr], fun _ => ⟨.junk s (String.mk m.rest), rfl⟩⟩, ?_, ?_, ?_⟩
      · intro e he
        simp only [Except.error.injEq] at he
        rw [← he]
        rfl
      · intro j hj
        simp only [Except.error.injEq, DeltaErr.junk.injEq] at hj
        exact ⟨m, rfl, hj.2.symm⟩
      · intro hw
        simp [hr] at hw

/-- Witness for C9: the asymmetric form and the trailing-junk form both
fail with errors reporting the original strings. -/
theorem c9_syntax_errors_witness :
    DeltaErr.origin (DeltaErr.junk "+-5x" "x") = "+-5x" ∧
    DeltaErr.origin (DeltaErr.asym "+5-") = "+5-" :=
  ⟨(c9_syntax_errors "+-5x").2.1 (DeltaErr.junk "+-5x" "x") rfl,
   (c9_syntax_errors "+5-").2.1 (DeltaErr.asym "+5-") rfl⟩

/-! ## Claim theorems for the Differ -/

/-- Claim C10: every returned result dict is either the bare empty
failure dict holding none of the three output keys, or a success dict
that holds the missing and different keys and holds the additional key
exactly when only-missing mode is off; the two shapes are therefore
distinguishable even when all difference lists are empty. -/
theorem c10_result_shape (D : Differ) (c1 c2 : List Rec) (om ad : Bool) (r : ResultDict)
    (h : Differ.diff D c1 c2 om ad = .returned r) :
    r = ⟨none, none, none⟩ ∨
      (r.missing.isSome = true ∧ r.different.isSome = true ∧
        (r.additional.isSome = true ↔ om = false)) := by
  unfold Differ.diff at h
  split at h
  · rename_i hl _
    cases hl with
    | raised e => cases h
    | empty =>
      simp only [haltOut, DiffOutcome.returned.injEq] at h
      exact Or.inl h.symm
  · rename_i s1 im1 h1
    split at h
    · rename_i hl _
      cases hl with
      | raised e => cases h
      | empty =>
        simp only [haltOut, DiffOutcome.returned.injEq] at h
        exact Or.inl h.symm
    · rename_i s2 im2 h2
      unfold buildResult at h
      split at h
      · cases h
      · simp only [DiffOutcome.returned.injEq] at h
        refine Or.inr ?_
        rw [← h]
        refine ⟨rfl, rfl, ?_⟩
        cases om <;> simp

/-- Witness for C10 on a pair of trivial empty sources. -/
theorem c10_result_shape_witness :
    (⟨some [], some [], some []⟩ : ResultDict) = ⟨none, none, none⟩ ∨
      ((some ([] : List Rec)).isSome = true ∧ (some ([] : List ChangeRec)).isSome = true ∧
        ((some ([] : List Rec)).isSome = true ↔ false = false)) :=
  c10_result_shape ⟨"k", [], [], []⟩ [] [] false false ⟨some [], some [], some []⟩ rfl

/-- Claim C6: in a successful diff with no informational fields configured,
the missing output lists exactly the keys of the first source absent from
the second, the additional output is present exactly when only-missing
mode is off and then lists exactly the keys of the second source absent
from the first, and when the key sets are disjoint the different output
is empty. -/
theorem c6_set_difference (D : Differ) (c1 c2 : List Rec) (om ad : Bool) (r : ResultDict)
    (ms : List Rec) (hinfo : D.info = [])
    (h : Differ.diff D c1 c2 om ad = .returned r) (hm : r.missing = some ms) :
    (∀ k : Value, [(D.key_field, k)] ∈ ms ↔
        (k ∈ recKeys D.key_field c1 ∧ ¬ k ∈ recKeys D.key_field c2)) ∧
    (r.additional.isSome = true ↔ om = false) ∧
    (∀ al, r.additional = some al → ∀ k : Value, [(D.key_field, k)] ∈ al ↔
        (k ∈ recKeys D.key_field c2 ∧ ¬ k ∈ recKeys D.key_field c1)) ∧
    ((∀ k : Value, ¬ (k ∈ recKeys D.key_field c1 ∧ k ∈ recKeys D.key_field c2)) →
      r.different = some []) := by
  unfold Differ.diff at h
  split at h
  · rename_i hl _
    cases hl with
    | raised e => cases h
    | empty =>
      simp only [haltOut, DiffOutcome.returned.injEq] at h
      rw [← h] at hm
      cases hm
  · rename_i s1 im1 h1
    split at h
    · rename_i hl _
      cases hl with
      | raised e => cases h
      | empty =>
        simp only [haltOut, DiffOutcome.returned.injEq] at h
        rw [← h] at hm
        cases hm
    · rename_i s2 im2 h2
      have keys1 := runColl_ok_keys D ad false c1 [] s1 im1 h1
      have keys2 := runColl_ok_keys D ad true c2 im1 s2 im2 h2
      unfold buildResult at h
      split at h
      · cases h
      · rename_i ch hch
        simp only [DiffOutcome.returned.injEq] at h
        rw [← h] at hm ⊢
        simp only [Option.some.injEq] at hm
        have hout : ∀ k : Value, mkOutRec D im2 k = [(D.key_field, k)] := by
          intro k
          unfold mkOutRec
          rw [if_neg (by simp [hinfo])]
        refine ⟨?_, ?_, ?_, ?_⟩
        · intro k
          rw [← hm]
          simp only [List.mem_map, List.mem_filter, decide_eq_true_iff]
          constructor
          · rintro ⟨a, ⟨ha1, ha2⟩, hae⟩
            rw [hout a] at hae
            simp only [List.cons.injEq, Prod.mk.injEq] at hae
            rw [← hae.1.2]
            exact ⟨(keys1 a).mp ha1, fun hc => ha2 ((keys2 a).mpr hc)⟩
          · rintro ⟨hk1, hk2⟩
            exact ⟨k, ⟨(keys1 k).mpr hk1, fun hc => hk2 ((keys2 k).mp hc)⟩, hout k⟩
        · cases om <;> simp
        · intro al hal k
          cases om with
          | true => cases hal
          | false =>
            rw [if_neg (by simp)] at hal
            simp only [Option.some.injEq] at hal
            rw [← hal]
            simp only [List.mem_map, List.mem_filter, decide_eq_true_iff]
            constructor
            · rintro ⟨a, ⟨ha1, ha2⟩, hae⟩
              rw [hout a] at hae
              simp only [List.cons.injEq, Prod.mk.injEq] at hae
              rw [← hae.1.2]
              exact ⟨(keys2 a).mp ha1, fun hc => ha2 ((keys1 a).mpr hc)⟩
            · rintro ⟨hk1, hk2⟩
              exact ⟨k, ⟨(keys2 k).mpr hk1, fun hc => hk2 ((keys1 k).mp hc)⟩, hout k⟩
        · intro hdisj
          simp only [Option.some.injEq]
          have hempty : changedKeys s1.keys s2.keys = [] := by
            unfold changedKeys
            rw [List.filter_eq_nil_iff]
            intro a ha
            simp only [decide_eq_true_iff]
            intro hc
            exact hdisj a ⟨(keys1 a).mp ha, (keys2 a).mp hc⟩
          rw [hempty] at hch
          by_cases hp : D.props ≠ [] ∨ D.prop_deltas ≠ []
          · rw [if_pos hp] at hch
            unfold changedPropsGo at hch
            simp only [Except.ok.injEq] at hch
            exact hch.symm
          · rw [if_neg hp] at hch
            simp only [Except.ok.injEq] at hch
            exact hch.symm

/-- Witness for C6 on singleton sources with disjoint keys. -/
theorem c6_set_difference_witness :
    [("k", Value.str ("a"))] ∈ [[("k", Value.str ("a"))]] ↔
      (Value.str ("a") ∈ recKeys "k" [[("k", Value.str ("a"))]] ∧
        ¬ Value.str ("a") ∈ recKeys "k" [[("k", Value.str ("b"))]]) :=
  (c6_set_difference ⟨"k", [], [], []⟩ [[("k", Value.str ("a"))]] [[("k", Value.str ("b"))]]
    false false ⟨some [[("k", Value.str ("a"))]], some [[("k", Value.str ("b"))]], some []⟩
    [[("k", Value.str ("a"))]] rfl rfl rfl).1 (Value.str ("a"))

/-! ## Lemmas for the exact-comparison claim -/

theorem numChanges_no_exact (np0 np1 : List (Value × List (String × ℚ))) (im : InfoMap)
    (k1 k : Value) :
    ∀ (ds : List (String × Delta)) (l : List ChangeRec),
      numChanges np0 np1 im k1 ds = .ok l →
      l.filter (ChangeRec.isExactFor k) = []
  | [], l, h => by
    simp only [numChanges, Except.ok.injEq] at h
    rw [← h]
    rfl
  | (pkey, rule) :: rest, l, h => by
    simp only [numChanges] at h
    split at h
    · cases h
    · split at h
      · cases h
      · split at h
        · cases h
        · rename_i oldval hold newval hnew emitted hemit
          cases hrec : numChanges np0 np1 im k1 rest with
          | error e => rw [hrec] at h; cases h
          | ok l1 =>
            rw [hrec] at h
            simp only [Except.map, Except.ok.injEq] at h
            rw [← h, List.filter_append]
            have h1 : emitted.filter (ChangeRec.isExactFor k) = [] := by
              split at hemit
              · cases hex : changeExtra im k1 with
                | error e => rw [hex] at hemit; cases hemit
                | ok ex =>
                  rw [hex] at hemit
                  simp only [Except.map, Except.ok.injEq] at hemit
                  rw [← hemit]
                  rfl
              · simp only [Except.ok.injEq] at hemit
                rw [← hemit]
                rfl
            rw [h1, numChanges_no_exact np0 np1 im k1 k rest l1 hrec]
            rfl

theorem eqChange_eval (eq0 eq1 : List (Value × List (String × String))) (k : Value)
    (t0 t1 : List (String × String))
    (h0 : alookup eq0 k = some t0) (h1 : alookup eq1 k = some t1) :
    eqChange eq0 eq1 [] k =
      .ok (if t0 = t1 then [] else [ChangeRec.exact k t0 t1 []]) := by
  unfold eqChange
  rw [h0, h1]
  dsimp only
  split
  · rfl
  · rfl

theorem eqChange_off_key (eq0 eq1 : List (Value × List (String × String))) (im : InfoMap)
    (k1 k : Value) (l : List ChangeRec) (h : eqChange eq0 eq1 im k1 = .ok l)
    (hne : k1 ≠ k) : l.filter (ChangeRec.isExactFor k) = [] := by
  unfold eqChange at h
  split at h
  · cases h
  · split at h
    · cases h
    · split at h
      · simp only [Except.ok.injEq] at h
        rw [← h]
        rfl
      · cases hex : changeExtra im k1 with
        | error e => rw [hex] at h; cases h
        | ok ex =>
          rw [hex] at h
          simp only [Except.map, Except.ok.injEq] at h
          rw [← h]
          simp [ChangeRec.isExactFor, hne]

theorem changedPropsGo_cons (D : Differ) (s1 s2 : CollState) (im : InfoMap) (k : Value)
    (ks : List Value) (ch : List ChangeRec)
    (h : changedPropsGo D s1 s2 im (k :: ks) = .ok ch) :
    ∃ nc ec rest,
      (if D.prop_deltas ≠ [] then numChanges s1.numprops s2.numprops im k D.prop_deltas
       else .ok [] : Except PyErr (List ChangeRec)) = .ok nc ∧
      (if D.props ≠ [] then eqChange s1.eqprops s2.eqprops im k
       else .ok [] : Except PyErr (List ChangeRec)) = .ok ec ∧
      changedPropsGo D s1 s2 im ks = .ok rest ∧ ch = nc ++ ec ++ rest := by
  simp only [changedPropsGo] at h
  split at h
  · cases h
  · rename_i nc hnc
    split at h
    · cases h
    · rename_i ec hec
      split at h
      · cases h
      · rename_i rest hrest
        simp only [Except.ok.injEq] at h
        exact ⟨nc, ec, rest, hnc, hec, hrest, h.symm⟩

theorem changedPropsGo_off_key (D : Differ) (s1 s2 : CollState) (im : InfoMap) (k : Value) :
    ∀ (ks : List Value) (ch : List ChangeRec),
      changedPropsGo D s1 s2 im ks = .ok ch → ¬ k ∈ ks →
      ch.filter (ChangeRec.isExactFor k) = []
  | [], ch, h, _ => by
    simp only [changedPropsGo, Except.ok.injEq] at h
    rw [← h]
    rfl
  | k1 :: ks, ch, h, hk => by
    obtain ⟨nc, ec, rest, hnc, hec, hrest, hch⟩ := changedPropsGo_cons D s1 s2 im k1 ks ch h
    have hnk1 : k1 ≠ k := fun he => hk (he ▸ List.mem_cons_self k1 ks)
    have hnks : ¬ k ∈ ks := fun he => hk (List.mem_cons_of_mem k1 he)
    rw [hch, List.filter_append, List.filter_append]
    have e1 : nc.filter (ChangeRec.isExactFor k) = [] := by
      by_cases hp : D.prop_deltas ≠ []
      · rw [if_pos hp] at hnc
        exact numChanges_no_exact s1.numprops s2.numprops im k1 k D.prop_deltas nc hnc
      · rw [if_neg hp] at hnc
        simp only [Except.ok.injEq] at hnc
        rw [← hnc]
        rfl
    have e2 : ec.filter (ChangeRec.isExactFor k) = [] := by
      by_cases hp : D.props ≠ []
      · rw [if_pos hp] at hec
        exact eqChange_off_key s1.eqprops s2.eqprops im k1 k ec hec hnk1
      · rw [if_neg hp] at hec
        simp only [Except.ok.injEq] at hec
        rw [← hec]
        rfl
    rw [e1, e2, changedPropsGo_off_key D s1 s2 im k ks rest hrest hnks]
    rfl

theorem changedPropsGo_exact_at_key (D : Differ) (s1 s2 : CollState) (k : Value)
    (t1 t2 : List (String × String)) (hprops : D.props ≠ [])
    (he1 : alookup s1.eqprops k = some t1) (he2 : alookup s2.eqprops k = some t2) :
    ∀ (ks : List Value) (ch : List ChangeRec), ks.Nodup → k ∈ ks →
      changedPropsGo D s1 s2 [] ks = .ok ch →
      ch.filter (ChangeRec.isExactFor k) =
        (if t1 = t2 then [] else [ChangeRec.exact k t1 t2 []])
  | [], ch, _, hk, _ => absurd hk (List.not_mem_nil k)
  | k1 :: ks, ch, hnd, hk, h => by
    obtain ⟨nc, ec, rest, hnc, hec, hrest, hch2⟩ := changedPropsGo_cons D s1 s2 [] k1 ks ch h
    have e1 : nc.filter (ChangeRec.isExactFor k) = [] := by
      by_cases hp : D.prop_deltas ≠ []
      · rw [if_pos hp] at hnc
        exact numChanges_no_exact s1.numprops s2.numprops [] k1 k D.prop_deltas nc hnc
      · rw [if_neg hp] at hnc
        simp only [Except.ok.injEq] at hnc
        rw [← hnc]
        rfl
    by_cases hkk : k1 = k
    · subst hkk
      rw [if_pos hprops] at hec
      rw [eqChange_eval s1.eqprops s2.eqprops k1 t1 t2 he1 he2] at hec
      simp only [Except.ok.injEq] at hec
      have hnotin : ¬ k1 ∈ ks := (List.nodup_cons.mp hnd).1
      have e3 := changedPropsGo_off_key D s1 s2 [] k1 ks rest hrest hnotin
      rw [hch2, List.filter_append, List.filter_append, e1, e3, ← hec]
      split <;> simp [ChangeRec.isExactFor]
    · have hksk : k ∈ ks := by
        rcases List.mem_cons.mp hk with he | hin
        · exact absurd he.symm hkk
        · exact hin
      have e2 : ec.filter (ChangeRec.isExactFor k) = [] := by
        rw [if_pos hprops] at hec
        exact eqChange_off_key s1.eqprops s2.eqprops [] k1 k ec hec hkk
      have ih := changedPropsGo_exact_at_key D s1 s2 k t1 t2 hprops he1 he2 ks rest
        (List.nodup_cons.mp hnd).2 hksk hrest
      rw [hch2, List.filter_append, List.filter_append, e1, e2, ih]
      rfl

/-- Claim C7: with equality fields configured and no informational fields,
for a key present in both key sets whose equality tuples were extracted in
both snapshots, the changed output holds exactly one exact-type record for
that key when the tuples differ, carrying both full tuples, and no
exact-type record for that key when the tuples are equal. -/
theorem c7_exact_change (D : Differ) (s1 s2 : CollState) (k : Value)
    (t1 t2 : List (String × String)) (ch : List ChangeRec)
    (hnd : s1.keys.Nodup) (hk1 : k ∈ s1.keys) (hk2 : k ∈ s2.keys)
    (he1 : alookup s1.eqprops k = some t1) (he2 : alookup s2.eqprops k = some t2)
    (hprops : D.props ≠ [])
    (hch : changedPropsGo D s1 s2 [] (changedKeys s1.keys s2.keys) = .ok ch) :
    ch.filter (ChangeRec.isExactFor k) =
      (if t1 = t2 then [] else [ChangeRec.exact k t1 t2 []]) := by
  refine changedPropsGo_exact_at_key D s1 s2 k t1 t2 hprops he1 he2
    (changedKeys s1.keys s2.keys) ch ?_ ?_ hch
  · exact List.Nodup.filter _ hnd
  · unfold changedKeys
    rw [List.mem_filter]
    exact ⟨hk1, by simpa using hk2⟩

/-- Witness for C7: singleton snapshots sharing one key with differing
one-field tuples produce exactly the one exact-type record. -/
theorem c7_exact_change_witness :
    ([ChangeRec.exact (Value.str ("a")) [("f", "1")] [("f", "2")] []].filter
        (ChangeRec.isExactFor (Value.str ("a")))) =
      (if ([("f", "1")] : List (String × String)) = [("f", "2")] then []
       else [ChangeRec.exact (Value.str ("a")) [("f", "1")] [("f", "2")] []]) := by
  refine c7_exact_change ⟨"k", ["f"], [], []⟩
    ⟨[Value.str ("a")], [], [(Value.str ("a"), [("f", "1")])], 1, 0⟩
    ⟨[Value.str ("a")], [], [(Value.str ("a"), [("f", "2")])], 1, 0⟩
    (Value.str ("a")) [("f", "1")] [("f", "2")]
    [ChangeRec.exact (Value.str ("a")) [("f", "1")] [("f", "2")] []]
    ?_ ?_ ?_ rfl rfl ?_ rfl
  · simp
  · simp
  · simp
  · simp

/-- Claim C8: during extraction, a record whose key was already seen in
the same source raises the duplicate-key ValueError when duplicates are
disallowed; when duplicates are allowed the step succeeds and the numeric
and equality snapshot entries for that key become the values extracted
from the later record. -/
theorem c8_duplicate_handling (D : Differ) (st : CollState) (im : InfoMap) (r : Rec)
    (key : Value) (cidx : Bool) (hg : getField r D.key_field = some key) :
    (key ∈ st.keys →
      stepRec D false cidx st im r =
        .error (.raised (.valueErr ("Duplicate key: " ++ key.toStr)))) ∧
    (∀ pv m tup, D.prop_deltas ≠ [] → D.props ≠ [] → D.info = [] →
      numExtract cidx key r D.prop_deltas [] 0 = .ok (pv, m) →
      eqExtract r D.props = some tup →
      stepOk (stepRec D true cidx st im r) = true ∧
      stepNum (stepRec D true cidx st im r) key = some pv ∧
      stepEq (stepRec D true cidx st im r) key = some tup) := by
  constructor
  · intro hmem
    unfold stepRec
    rw [hg]
    dsimp only
    rw [if_pos ⟨rfl, hmem⟩]
  · intro pv m tup hdel hpr hinfo hnum heq
    have hstep : stepRec D true cidx st im r =
        .ok (⟨addKey st.keys key, aset st.numprops key pv, aset st.eqprops key tup,
              st.count + 1, st.missing_props + m⟩, im) := by
      unfold stepRec
      rw [hg]
      dsimp only
      rw [if_neg (by simp)]
      unfold stepBody
      rw [if_pos hdel, hnum]
      dsimp only
      rw [if_pos hpr, heq]
      unfold finishRec
      dsimp only
      rw [if_neg (by simp [hinfo])]
    rw [hstep]
    refine ⟨rfl, ?_, ?_⟩
    · exact alookup_aset_self st.numprops key pv
    · exact alookup_aset_self st.eqprops key tup

/-- Witness for C8: a duplicate key raises, and with duplicates allowed a
second record with the same key overwrites the snapshot entries. -/
theorem c8_duplicate_handling_witness :
    (stepRec ⟨"k", ["f"], [], [("p", ⟨false, 1, -1, false, false, "+-1"⟩)]⟩ false false
        ⟨[Value.str ("a")], [], [], 1, 0⟩ [] [("k", Value.str ("a"))] =
      .error (.raised (.valueErr ("Duplicate key: a")))) ∧
    (stepOk (stepRec ⟨"k", ["f"], [], [("p", ⟨false, 1, -1, false, false, "+-1"⟩)]⟩ true false
        ⟨[Value.str ("a")], [(Value.str ("a"), [("p", 7)])],
          [(Value.str ("a"), [("f", "old")])], 1, 0⟩ []
        [("k", Value.str ("a")), ("p", Value.num 2), ("f", Value.str ("z"))]) = true ∧
     stepNum (stepRec ⟨"k", ["f"], [], [("p", ⟨false, 1, -1, false, false, "+-1"⟩)]⟩ true false
        ⟨[Value.str ("a")], [(Value.str ("a"), [("p", 7)])],
          [(Value.str ("a"), [("f", "old")])], 1, 0⟩ []
        [("k", Value.str ("a")), ("p", Value.num 2), ("f", Value.str ("z"))])
        (Value.str ("a")) = some [("p", 2)] ∧
     stepEq (stepRec ⟨"k", ["f"], [], [("p", ⟨false, 1, -1, false, false, "+-1"⟩)]⟩ true false
        ⟨[Value.str ("a")], [(Value.str ("a"), [("p", 7)])],
          [(Value.str ("a"), [("f", "old")])], 1, 0⟩ []
        [("k", Value.str ("a")), ("p", Value.num 2), ("f", Value.str ("z"))])
        (Value.str ("a")) = some [("f", "z")]) := by
  constructor
  · exact (c8_duplicate_handling ⟨"k", ["f"], [], [("p", ⟨false, 1, -1, false, false, "+-1"⟩)]⟩
      ⟨[Value.str ("a")], [], [], 1, 0⟩ [] [("k", Value.str ("a"))] (Value.str ("a")) false
      rfl).1 (by simp)
  · exact (c8_duplicate_handling ⟨"k", ["f"], [], [("p", ⟨false, 1, -1, false, false, "+-1"⟩)]⟩
      ⟨[Value.str ("a")], [(Value.str ("a"), [("p", 7)])],
        [(Value.str ("a"), [("f", "old")])], 1, 0⟩ []
      [("k", Value.str ("a")), ("p", Value.num 2), ("f", Value.str ("z"))]
      (Value.str ("a")) false rfl).2 [("p", 2)] 0 [("f", "z")]
      (by simp) (by simp) rfl rfl rfl

/-- Claim C1 shows a code bug: with one numeric property configured, a key
present in both sources whose property is absent from its first-source
record (with another record keeping the source from the all-missing
abort) makes the changed-property pass look the value up and fail with
KeyError, instead of being excluded from the numeric comparison. -/
theorem c1_numeric_lookup_key_error :
    Differ.diff ⟨"k", [], [], [("p", ⟨false, 1, -1, false, false, "+-1"⟩)]⟩
      [[("k", Value.str ("a"))], [("k", Value.str ("b")), ("p", Value.num 1)]]
      [[("k", Value.str ("a")), ("p", Value.num 1)], [("k", Value.str ("b")), ("p", Value.num 1)]]
      false false = .raised (.keyErr "p") := by
  rfl

/-- Claim C5 shows a code bug: the aggregate abort compares the record
count with the tally of missing-property instances, not with the number
of records missing properties.  First conjunct: two records, one missing
both of two configured properties, so the tally equals the count and the
diff aborts although only half the records were missing properties.
Second conjunct: every record of the first source is missing properties,
but the tally differs from the count, so instead of aborting with the
failure value the diff proceeds and raises KeyError. -/
theorem c5_aggregate_abort_bug :
    (Differ.diff ⟨"k", [], [],
        [("p", ⟨false, 1, -1, false, false, "+-1"⟩), ("q", ⟨false, 1, -1, false, false, "+-1"⟩)]⟩
      [[("k", Value.str ("a"))], [("k", Value.str ("b")), ("p", Value.num 1), ("q", Value.num 1)]]
      [] false false = .returned ⟨none, none, none⟩) ∧
    (Differ.diff ⟨"k", [], [],
        [("p", ⟨false, 1, -1, false, false, "+-1"⟩), ("q", ⟨false, 1, -1, false, false, "+-1"⟩)]⟩
      [[("k", Value.str ("a"))]]
      [[("k", Value.str ("a")), ("p", Value.num 1), ("q", Value.num 1)]]
      false false = .raised (.keyErr "p")) := by
  exact ⟨rfl, rfl⟩

end MgVvDiff
